import Mathlib

/-!
Shallow embedding of the artifact-management layer of the imcode repository
(src/src/contexts/AICodeContext.tsx, second provider version, and
src/src/components/ChatInterface.tsx), together with theorems settling the
frozen claims about it.

JavaScript strings are modelled as Lean `String` (lists of characters); all
string primitives used by the source (toLowerCase, trim, includes, endsWith,
split, the two extension regexes, …) are defined below by recursion on the
character list, with ASCII semantics, which matches the data the application
manipulates.  React state updates are modelled as explicit state passing
(run-to-completion, one operation at a time), timestamps and random id
suffixes are passed in as parameters.
-/

namespace ImCode

/-! ## String primitives -/

/-- JavaScript `toLowerCase` (ASCII range). -/
def lower (s : String) : String := String.mk (s.data.map Char.toLower)

/-- JavaScript whitespace class `\s` (ASCII part). -/
def isWs (c : Char) : Bool :=
  c == ' ' || c == '\t' || c == '\n' || c == '\r' || c == '\x0b' || c == '\x0c'

def trimChars (cs : List Char) : List Char :=
  ((cs.dropWhile isWs).reverse.dropWhile isWs).reverse

/-- JavaScript `String.prototype.trim`. -/
def trimStr (s : String) : String := String.mk (trimChars s.data)

/-- JavaScript `s.startsWith(p)`. -/
def strStartsWith (s p : String) : Bool := p.data.isPrefixOf s.data

/-- JavaScript `s.endsWith(p)`. -/
def strEndsWith (s p : String) : Bool := p.data.isSuffixOf s.data

def containsChars (needle : List Char) : List Char → Bool
  | [] => needle.isEmpty
  | c :: cs => needle.isPrefixOf (c :: cs) || containsChars needle cs

/-- JavaScript `s.includes(needle)`. -/
def includesStr (s needle : String) : Bool := containsChars needle.data s.data

/-- Is `cs` a valid extension tail, i.e. nonempty with no `.` and no `/`
(the `[^/.]+$` part of the source's extension regexes)? -/
def extnOk (cs : List Char) : Bool :=
  !cs.isEmpty && cs.all (fun d => d != '.' && d != '/')

/-- JavaScript `s.replace(/\.[^\/.]+$/, "")` (leftmost-match semantics:
the extension starts at the last dot whose tail is dot- and slash-free). -/
def dropExtChars : List Char → List Char
  | [] => []
  | c :: cs => if c == '.' && extnOk cs then [] else c :: dropExtChars cs

/-- JavaScript `s.match(/\.[^\/.]+$/)?.[0] || ''`. -/
def extChars : List Char → List Char
  | [] => []
  | c :: cs => if c == '.' && extnOk cs then c :: cs else extChars cs

def removeExt (s : String) : String := String.mk (dropExtChars s.data)

def extOf (s : String) : String := String.mk (extChars s.data)

/-- JavaScript `s.split(sep)` for a one-character separator. -/
def splitCharOn (sep : Char) : List Char → List (List Char)
  | [] => [[]]
  | c :: cs =>
    if c == sep then [] :: splitCharOn sep cs
    else
      match splitCharOn sep cs with
      | [] => [[c]]
      | h :: t => (c :: h) :: t

/-- `s.split('/')`. -/
def splitSlash (s : String) : List String :=
  (splitCharOn '/' s.data).map String.mk

/-- `lines.join('/')`. -/
def joinWith (sep : String) : List String → String
  | [] => ""
  | [p] => p
  | p :: ps => p ++ sep ++ joinWith sep ps

/-- `s.split('\n')`. -/
def linesOf (s : String) : List String :=
  (splitCharOn '\n' s.data).map String.mk

def joinNl (ls : List String) : String := joinWith "\n" ls

/-- Number of `/` characters in the string (`(s.match(/\//g) || []).length`). -/
def countSlash (s : String) : Nat := s.data.count '/'

/-! ## Data model -/

/-- `FileItem` from AICodeContext.tsx (the `parentId`/`displayName` fields are
never consulted by the functions under study and are omitted; the optional
`content` is modelled as a plain string, `""` standing for absent). -/
structure FileItem where
  id : String
  name : String
  ftype : String
  content : String
deriving Repr, DecidableEq

/-- `ProjectData` from AICodeContext.tsx; ISO timestamps are opaque strings. -/
structure ProjectData where
  id : String
  name : String
  files : List FileItem
  createdAt : String
  updatedAt : String
deriving Repr, DecidableEq

/-- The provider's React state triple. -/
structure AIState where
  files : List FileItem
  selectedFileId : String
  currentProject : Option ProjectData
deriving Repr, DecidableEq

/-! ## Identity and uniqueness registry -/

/-- Candidate name built by `getUniqueFileName`'s loop body for a given
counter value: `pathPrefix + baseName + (counter > 1 ? "_v" + counter : "") + extension`. -/
def vCandidate (pathPre baseName extn : String) (counter : Nat) : String :=
  pathPre ++ baseName ++ (if counter > 1 then "_v" ++ toString counter else "") ++ extn

/-- The `while` loop of `getUniqueFileName` (fuelled; the fuel passed by
`getUniqueFileName` is enough for the loop to find a free candidate, since
distinct counters give distinct candidate strings). -/
def vLoop (existingNames : List String) (pathPre baseName extn : String) :
    Nat → Nat → String → String
  | 0, _, uniqueName => uniqueName
  | fuel + 1, counter, uniqueName =>
    if existingNames.contains (lower (vCandidate pathPre baseName extn counter)) then
      vLoop existingNames pathPre baseName extn fuel (counter + 1)
        (vCandidate pathPre baseName extn (counter + 1))
    else uniqueName

/-- `getUniqueFileName` (AICodeContext.tsx lines 419-444): case-insensitive
collision check, `_v2`, `_v3`, … disambiguators before the extension. -/
def getUniqueFileName (files : List FileItem) (fileName : String) : String :=
  let existingNames := files.map (fun f => lower f.name)
  if !(existingNames.contains (lower fileName)) then fileName
  else
    let pathParts := splitSlash fileName
    -- `pathParts.pop() || fileName` (the empty string is falsy in JS)
    let lastPart := (pathParts.getLast?).getD ""
    let fileNamePart := if lastPart == "" then fileName else lastPart
    let remParts := pathParts.dropLast
    let pathPre := if remParts.length > 0 then joinWith "/" remParts ++ "/" else ""
    let baseName := removeExt fileNamePart
    let extn := extOf fileNamePart
    vLoop existingNames pathPre baseName extn (existingNames.length + 1) 1 fileName

/-- The `while` loop of `generateUniqueFileName`: checks `uniqueName`,
then sets `uniqueName = base + "_" + counter + ext` and post-increments. -/
def genLoop (existingNames : List String) (baseName extn : String) :
    Nat → Nat → String → String
  | 0, _, uniqueName => uniqueName
  | fuel + 1, counter, uniqueName =>
    if existingNames.contains uniqueName then
      genLoop existingNames baseName extn fuel (counter + 1)
        (baseName ++ "_" ++ toString counter ++ extn)
    else uniqueName

/-- `generateUniqueFileName` (AICodeContext.tsx lines 57-76, first provider
version): case-sensitive collision check, `_1`, `_2`, … disambiguators. -/
def generateUniqueFileName (fileName : String) (existingFiles : List FileItem) : String :=
  let existingNames := existingFiles.map (fun f => f.name)
  if !(existingNames.contains fileName) then fileName
  else
    genLoop existingNames (removeExt fileName) (extOf fileName)
      (existingNames.length + 2) 1 fileName

/-- Leading `@` stripping at the top of `findFileByName`. -/
def cleanName (fileName : String) : String :=
  if strStartsWith fileName "@" then String.mk (fileName.data.drop 1) else fileName

/-- `s.split('/').pop()?.replace(/\.[^\/.]+$/, "") || s` — the basename with
its extension removed, falling back to the whole string when that basename is
empty (the empty string is falsy in JS). -/
def baseNameOf (s : String) : String :=
  let b := removeExt ((splitSlash s).getLast?.getD "")
  if b == "" then s else b

/-- `f.name.toLowerCase().replace(/[_\-\.\/]/g, '')`. -/
def normalizeName (s : String) : String :=
  String.mk ((lower s).data.filter (fun c => !(c == '_' || c == '-' || c == '.' || c == '/')))

/-- The six matching strategies of `findFileByName` (AICodeContext.tsx lines
471-529), in source order: exact, case-insensitive exact, ends-with,
contains, basename-without-extension, separator-stripped fuzzy. -/
def stratMatch : Nat → String → FileItem → Bool
  | 0, q, f => f.name == q
  | 1, q, f => lower f.name == lower q
  | 2, q, f => strEndsWith f.name q
  | 3, q, f => includesStr f.name q
  | 4, q, f => lower (baseNameOf f.name) == lower (baseNameOf q)
  | _, q, f => normalizeName f.name == normalizeName q

/-- `findFileByName`: the strategies are tried in order, each via
`Array.prototype.find` (first entry in insertion order), returning as soon as
one strategy produces a match. -/
def findFileByName (files : List FileItem) (fileName : String) : Option FileItem :=
  let q := cleanName fileName
  (files.find? (stratMatch 0 q)).orElse fun _ =>
  (files.find? (stratMatch 1 q)).orElse fun _ =>
  (files.find? (stratMatch 2 q)).orElse fun _ =>
  (files.find? (stratMatch 3 q)).orElse fun _ =>
  (files.find? (stratMatch 4 q)).orElse fun _ =>
  files.find? (stratMatch 5 q)

/-- `organizeFileIntoDirectory` (AICodeContext.tsx lines 532-671).  The
`ty` parameter mirrors the source's unused `type` argument. -/
def organizeFileIntoDirectory (fileName content _ty : String) : String :=
  let pathDepth := countSlash fileName
  if pathDepth ≥ 2 then fileName
  else
    let lowerContent := lower content
    let lowerFileName := lower fileName
    if strEndsWith fileName ".move" || includesStr lowerContent "module" ||
        includesStr lowerContent "struct" then
      if includesStr lowerContent "core" || includesStr lowerContent "main" ||
          includesStr lowerContent "primary" then "contracts/core/" ++ fileName
      else if includesStr lowerContent "token" || includesStr lowerFileName "token" then
        if includesStr lowerContent "erc20" || includesStr lowerContent "fungible" then
          "contracts/tokens/fungible/" ++ fileName
        else if includesStr lowerContent "nft" || includesStr lowerContent "erc721" then
          "contracts/tokens/nft/" ++ fileName
        else "contracts/tokens/" ++ fileName
      else if includesStr lowerContent "defi" || includesStr lowerContent "liquidity" ||
          includesStr lowerContent "pool" then
        if includesStr lowerContent "liquidity" then "contracts/defi/liquidity/" ++ fileName
        else if includesStr lowerContent "swap" || includesStr lowerContent "exchange" then
          "contracts/defi/exchange/" ++ fileName
        else if includesStr lowerContent "lending" || includesStr lowerContent "borrow" then
          "contracts/defi/lending/" ++ fileName
        else "contracts/defi/" ++ fileName
      else if includesStr lowerContent "governance" || includesStr lowerContent "dao" ||
          includesStr lowerContent "voting" then "contracts/governance/" ++ fileName
      else if includesStr lowerContent "nft" || includesStr lowerFileName "nft" then
        if includesStr lowerContent "marketplace" then "contracts/nft/marketplace/" ++ fileName
        else if includesStr lowerContent "collection" then "contracts/nft/collections/" ++ fileName
        else "contracts/nft/" ++ fileName
      else if includesStr lowerContent "util" || includesStr lowerContent "helper" ||
          includesStr lowerContent "library" then "contracts/utils/" ++ fileName
      else if includesStr lowerContent "access" || includesStr lowerContent "role" ||
          includesStr lowerContent "permission" then "contracts/access/" ++ fileName
      else "contracts/core/" ++ fileName
    else if strEndsWith fileName ".js" || strEndsWith fileName ".ts" then
      if includesStr lowerContent "deploy" || includesStr lowerFileName "deploy" then
        if includesStr lowerContent "mainnet" || includesStr lowerFileName "mainnet" then
          "scripts/deployment/mainnet/" ++ fileName
        else if includesStr lowerContent "testnet" || includesStr lowerFileName "testnet" then
          "scripts/deployment/testnet/" ++ fileName
        else "scripts/deployment/" ++ fileName
      else if includesStr lowerContent "test" || includesStr lowerFileName "test" then
        if includesStr lowerContent "integration" then "tests/integration/" ++ fileName
        else if includesStr lowerContent "unit" then "tests/unit/" ++ fileName
        else "tests/" ++ fileName
      else if includesStr lowerContent "interact" || includesStr lowerFileName "interact" then
        "scripts/interaction/" ++ fileName
      else if includesStr lowerContent "config" || includesStr lowerFileName "config" then
        "config/" ++ fileName
      else "scripts/" ++ fileName
    else if strEndsWith fileName ".json" then
      if includesStr lowerFileName "package" then fileName
      else if includesStr lowerFileName "network" then "config/networks/" ++ fileName
      else "config/" ++ fileName
    else if strEndsWith fileName ".toml" then "config/" ++ fileName
    else if strEndsWith fileName ".md" then
      if includesStr lowerFileName "readme" then fileName
      else if includesStr lowerFileName "api" then "docs/api/" ++ fileName
      else if includesStr lowerFileName "deploy" then "docs/deployment/" ++ fileName
      else "docs/" ++ fileName
    else if strEndsWith fileName ".d.ts" then "types/" ++ fileName
    else "misc/" ++ fileName

/-! ## Content validation and the Store operations -/

/-- `validateFileContent` (AICodeContext.tsx lines 674-689): rejects empty or
short (trimmed length under 50) bodies, and `.move` bodies lacking all of the
`module` / `struct` / `public fun` keywords. -/
def validateFileContent (content fileName : String) : Bool :=
  if content = "" ∨ (trimStr content).length < 50 then false
  else if strEndsWith fileName ".move" then
    if !includesStr content "module" && !includesStr content "struct" &&
        !includesStr content "public fun" then false
    else true
  else true

/-- `fileName.replace(/[^a-zA-Z0-9]/g, '_')`. -/
def sanitizeId (s : String) : String :=
  String.mk (s.data.map (fun c => if c.isAlphanum then c else '_'))

/-- The generated id `${sanitized}_${Date.now()}_${random suffix}`. -/
def mkFileId (fileName : String) (nowMs : Nat) (rand : String) : String :=
  sanitizeId fileName ++ "_" ++ toString nowMs ++ "_" ++ rand

/-- `addFileFromAI` (AICodeContext.tsx lines 691-736): validate, then update
in place on a case-insensitive exact name collision, else append a new entry
and refresh the project envelope.  `nowMs`/`rand`/`nowIso` stand for
`Date.now()`, the random id suffix and `new Date().toISOString()`. -/
def addFileFromAI (fileName content _ftype : String) (nowMs : Nat) (rand : String)
    (nowIso : String) (s : AIState) : AIState :=
  if validateFileContent content fileName then
    match s.files.find? (fun f => lower f.name == lower fileName) with
    | some existingFile =>
      { s with
        files := s.files.map (fun f =>
          if f.id == existingFile.id then { f with content := content } else f),
        selectedFileId := existingFile.id }
    | none =>
      let uniqueId := mkFileId fileName nowMs rand
      let newFile : FileItem := ⟨uniqueId, fileName, "file", content⟩
      let newFiles := s.files ++ [newFile]
      { files := newFiles,
        selectedFileId := uniqueId,
        currentProject := some
          { id := match s.currentProject with
              | some p => p.id
              | none => "project_" ++ toString nowMs,
            name := match s.currentProject with
              | some p => p.name
              | none => "Current Project",
            files := newFiles,
            createdAt := match s.currentProject with
              | some p => p.createdAt
              | none => nowIso,
            updatedAt := nowIso } }
  else s

/-- `updateFile` (AICodeContext.tsx lines 738-748): replace the content of
the entry with the given id (the second provider version leaves
`currentProject` untouched here). -/
def updateFile (fileId content : String) (s : AIState) : AIState :=
  { s with
    files := s.files.map (fun f =>
      if f.id == fileId then { f with content := content } else f) }

/-- `deleteFile` (AICodeContext.tsx lines 832-848). -/
def deleteFile (fileId : String) (nowIso : String) (s : AIState) : AIState :=
  let newFiles := s.files.filter (fun f => !(f.id == fileId))
  { files := newFiles,
    selectedFileId := if s.selectedFileId == fileId then "" else s.selectedFileId,
    currentProject := match s.currentProject with
      | some p => some { p with files := newFiles, updatedAt := nowIso }
      | none => none }

/-! ## Intelligent merge -/

/-- The import-line test used by `mergeCodeIntelligently` (with JS operator
precedence: `startsWith('use ') || startsWith('import ') ||
(startsWith('const ') && line.includes('require('))`, the `includes` check on
the untrimmed line). -/
def isImportLine (line : String) : Bool :=
  strStartsWith (trimStr line) "use " || strStartsWith (trimStr line) "import " ||
  (strStartsWith (trimStr line) "const " && includesStr line "require(")

/-- `mergeCodeIntelligently` (AICodeContext.tsx lines 791-830): the imports of
the old body, then those imports of the new body whose trimmed text matches
no old import, then the old non-import lines, then the new non-import lines,
with blank-line separators. -/
def mergeCodeIntelligently (existing newCode : String) : String :=
  let existingLines := linesOf existing
  let newLines := linesOf newCode
  let existingImports := existingLines.filter isImportLine
  let newImports := newLines.filter isImportLine
  let allImports := newImports.foldl
    (fun acc newImport =>
      if !(existingImports.any (fun ex => trimStr ex == trimStr newImport)) then
        acc ++ [newImport]
      else acc)
    existingImports
  let existingCode := joinNl (existingLines.filter (fun l => !isImportLine l))
  let newCodeContent := joinNl (newLines.filter (fun l => !isImportLine l))
  joinNl allImports ++ "\n\n" ++ existingCode ++ "\n\n" ++ newCodeContent

/-- Modelled from the spec's amended reading of the merge ("new import lines
are appended to the old import block iff no old import line trim-matches
them; duplicates inside one body are preserved; non-import lines follow,
old then new"), stated with `filter` instead of the source's fold-push, for
comparison with `mergeCodeIntelligently`. -/
def mergeSpec (existing newCode : String) : String :=
  let existingLines := linesOf existing
  let newLines := linesOf newCode
  let existingImports := existingLines.filter isImportLine
  let freshImports := (newLines.filter isImportLine).filter
    (fun l => !(existingImports.any (fun ex => trimStr ex == trimStr l)))
  joinNl (existingImports ++ freshImports) ++ "\n\n" ++
    joinNl (existingLines.filter (fun l => !isImportLine l)) ++ "\n\n" ++
    joinNl (newLines.filter (fun l => !isImportLine l))

/-! ## Persistence adapter and project lifecycle -/

/-- The three localStorage keys the persistence code touches:
`imcode-current-project`, `imcode-selected-file`, `imcode-files-backup`
(JSON (de)serialisation is assumed faithful and elided). -/
structure Storage where
  currentProject : Option ProjectData
  selectedFile : Option String
  filesBackup : Option (List FileItem)
deriving Repr, DecidableEq

/-- `saveProjectToStorage` (AICodeContext.tsx lines 326-350): writes the
envelope, the selected id and the bare file list. -/
def saveProjectToStorage (nowMs : Nat) (nowIso : String) (s : AIState)
    (st : Storage) : Storage :=
  let projectToSave : ProjectData := match s.currentProject with
    | some p => p
    | none =>
      { id := "project_" ++ toString nowMs, name := "Current Project",
        files := s.files, createdAt := nowIso, updatedAt := nowIso }
  let updatedProject := { projectToSave with files := s.files, updatedAt := nowIso }
  { st with
    currentProject := some updatedProject,
    selectedFile := some s.selectedFileId,
    filesBackup := some s.files }

/-- Id of the first file of a list (`files[0].id`; only consulted under a
nonemptiness guard). -/
def firstId : List FileItem → String
  | [] => ""
  | f :: _ => f.id

/-- `loadProjectFromStorage` (AICodeContext.tsx lines 352-389): restore from
the envelope key, falling back to the bare file-list backup key.  A stored
selected id that is the empty string is falsy in JS and is ignored. -/
def loadProjectFromStorage (st : Storage) (s : AIState) : AIState :=
  match st.currentProject with
  | some project =>
    let selVal := st.selectedFile.getD ""
    let s1 := { s with currentProject := some project }
    let s2 := if project.files.length > 0 then { s1 with files := project.files } else s1
    if selVal ≠ "" ∧ project.files.any (fun f => f.id == selVal) then
      { s2 with selectedFileId := selVal }
    else if project.files.length > 0 then
      { s2 with selectedFileId := firstId project.files }
    else s2
  | none =>
    match st.filesBackup with
    | some filesBackup =>
      let selVal := st.selectedFile.getD ""
      let s1 := { s with files := filesBackup }
      if selVal ≠ "" ∧ filesBackup.any (fun f => f.id == selVal) then
        { s1 with selectedFileId := selVal }
      else if filesBackup.length > 0 then
        { s1 with selectedFileId := firstId filesBackup }
      else s1
    | none => s

/-- `createNewProject` (AICodeContext.tsx lines 850-867): removes the
`imcode-current-project` and `imcode-selected-file` keys (and only those),
then installs a fresh empty project and clears the in-memory state. -/
def createNewProject (name : String) (nowMs : Nat) (rand : String) (nowIso : String)
    (s : AIState) (st : Storage) : AIState × Storage :=
  let st' := { st with currentProject := none, selectedFile := none }
  let newProject : ProjectData :=
    { id := "project_" ++ toString nowMs ++ "_" ++ rand, name := name,
      files := [], createdAt := nowIso, updatedAt := nowIso }
  let _ := s
  (⟨[], "", some newProject⟩, st')

/-! ## Chat interface: extractor, edit-command interpreter, send flow -/

/-- One fenced code block as returned by `extractCodeFromResponse`. -/
structure CodeBlock where
  language : String
  code : String
deriving Repr, DecidableEq

/-- `\w` of JavaScript regexes (ASCII). -/
def wordChar (c : Char) : Bool := c.isAlphanum || c == '_'

/-- Split at the earliest occurrence of a triple backtick, returning the text
before it and the text after it (the lazy `([\s\S]*?)` + closing fence). -/
def splitAtTicks : List Char → Option (List Char × List Char)
  | [] => none
  | c :: cs =>
    if ['`', '`', '`'].isPrefixOf (c :: cs) then some ([], (c :: cs).drop 3)
    else
      match splitAtTicks cs with
      | some (b, r) => some (c :: b, r)
      | none => none

/-- Try to match `` ```(\w+)?\n([\s\S]*?)``` `` at the very start of the
text: opening fence, maximal word-character run, a newline, then the body up
to the earliest closing fence.  Returns (language group, body, rest). -/
def fenceMatchAt (cs : List Char) : Option (List Char × List Char × List Char) :=
  if ['`', '`', '`'].isPrefixOf cs then
    let afterTicks := cs.drop 3
    let run := afterTicks.takeWhile wordChar
    match afterTicks.dropWhile wordChar with
    | '\n' :: rest =>
      match splitAtTicks rest with
      | some (body, rest') => some (run, body, rest')
      | none => none
    | _ => none
  else none

/-- The `regex.exec` scan of `extractCodeFromResponse` (ChatInterface.tsx
lines 89-114), fuelled by the text length (each step consumes at least one
character): at each match, default an absent tag to `move`, drop Rust-tagged
blocks and blocks whose trimmed body is shorter than 50 characters, keep the
rest. -/
def keepBlock (language code : String) (blocks : List CodeBlock) : List CodeBlock :=
  if lower language == "rust" || lower language == "rs" then blocks
  else if code == "" || (trimStr code).length < 50 then blocks
  else ⟨language, code⟩ :: blocks

def extractLoop : Nat → List Char → List CodeBlock
  | 0, _ => []
  | _ + 1, [] => []
  | fuel + 1, c :: cs =>
    match fenceMatchAt (c :: cs) with
    | some (run, body, rest) =>
      keepBlock (if run.isEmpty then "move" else String.mk run) (String.mk body)
        (extractLoop fuel rest)
    | none => extractLoop fuel cs

/-- `extractCodeFromResponse`. -/
def extractCodeFromResponse (response : String) : List CodeBlock :=
  extractLoop response.data.length response.data

/-- A token of one alternative of an edit-command pattern: a literal matched
case-insensitively, or `\s+`. -/
inductive PatTok where
  | lit (s : String)
  | ws
deriving Repr, DecidableEq

/-- Match a token sequence at the start of the text, returning the rest.
`\s+` is greedy; the following token always starts with a non-whitespace
character, so no backtracking is needed. -/
def matchToksAt : List PatTok → List Char → Option (List Char)
  | [], cs => some cs
  | PatTok.lit l :: ts, cs =>
    if (l.data.map Char.toLower).isPrefixOf (cs.map Char.toLower) then
      matchToksAt ts (cs.drop l.data.length)
    else none
  | PatTok.ws :: ts, cs =>
    let r := cs.dropWhile isWs
    if r.length < cs.length then matchToksAt ts r else none

/-- Match one full alternative (verb tokens, then `\s+([^\s]+)`) at the start
of the text, returning the capture group. -/
def matchAltAt (alt : List PatTok) (cs : List Char) : Option String :=
  match matchToksAt alt cs with
  | none => none
  | some rest =>
    let rest2 := rest.dropWhile isWs
    if rest2.length < rest.length then
      let cap := rest2.takeWhile (fun c => !isWs c)
      if cap.isEmpty then none else some (String.mk cap)
    else none

/-- Try the alternatives of one pattern in order at a fixed position. -/
def matchAlts : List (List PatTok) → List Char → Option String
  | [], _ => none
  | alt :: rest, cs =>
    match matchAltAt alt cs with
    | some r => some r
    | none => matchAlts rest cs

/-- Leftmost match of one pattern (`message.match(pattern)`): positions are
tried left to right, alternatives in order at each position. -/
def searchPattern (alts : List (List PatTok)) : List Char → Option String
  | [] => none
  | c :: cs =>
    match matchAlts alts (c :: cs) with
    | some r => some r
    | none => searchPattern alts cs

def editPattern1 : List (List PatTok) :=
  [[.lit "edit"], [.lit "modify"], [.lit "update"], [.lit "change"]]
def editPattern2 : List (List PatTok) := [[.lit "fix"], [.lit "repair"], [.lit "adjust"]]
def editPattern3 : List (List PatTok) :=
  [[.lit "add", .ws, .lit "to"], [.lit "append", .ws, .lit "to"], [.lit "extend"]]
def editPattern4 : List (List PatTok) :=
  [[.lit "refactor"], [.lit "improve"], [.lit "enhance"]]
def editPattern5 : List (List PatTok) := [[.lit "work", .ws, .lit "on"], [.lit "update"]]

/-- `detectEditCommand` (ChatInterface.tsx lines 66-82): the five
case-insensitive verb patterns are tried in order over the whole message;
the first that matches anywhere yields its captured name. -/
def detectEditCommand (message : String) : Option String :=
  (searchPattern editPattern1 message.data).orElse fun _ =>
  (searchPattern editPattern2 message.data).orElse fun _ =>
  (searchPattern editPattern3 message.data).orElse fun _ =>
  (searchPattern editPattern4 message.data).orElse fun _ =>
  searchPattern editPattern5 message.data

/-- `preventDuplicateFiles` (AICodeContext.tsx lines 447-468). -/
def preventDuplicateFiles (files : List FileItem) (fileName : String) : Bool :=
  let existingNames := files.map (fun f => lower f.name)
  if existingNames.contains (lower fileName) then true
  else
    let baseName := lower (removeExt fileName)
    let extn := extOf fileName
    existingNames.any (fun existingName =>
      removeExt existingName == baseName && extOf existingName == extn)

/-- `generateFileName` (ChatInterface.tsx lines 121-267): content-sniffing
file naming for one extracted block, `none` standing for the source's `null`. -/
def generateFileName (files : List FileItem) (code language : String)
    (index : Nat) : Option String :=
  let lowerCode := lower code
  if lower language == "rust" || lower language == "rs" then none
  else if code == "" || (trimStr code).length < 50 then none
  else if includesStr code "module.exports" && includesStr lowerCode "hardhat" then
    some (getUniqueFileName files "config/hardhat.config.js")
  else if includesStr lowerCode "hardhat run" && includesStr lowerCode "deploy" then
    some (getUniqueFileName files "scripts/deployment/deploy_main.js")
  else if includesStr code "\"scripts\"" && includesStr code "\"hardhat\"" then
    some (getUniqueFileName files "package.json")
  else if includesStr code "[dependencies]" || includesStr code "[package]" then
    some (getUniqueFileName files "config/Move.toml")
  else if language == "move" || includesStr lowerCode "module" then
    if includesStr lowerCode "core" || includesStr lowerCode "main" then
      some (getUniqueFileName files "contracts/core/CoreProtocol.move")
    else if includesStr lowerCode "struct token" || includesStr lowerCode "token_" then
      if includesStr lowerCode "erc20" || includesStr lowerCode "fungible" then
        some (getUniqueFileName files "contracts/tokens/fungible/FungibleToken.move")
      else if includesStr lowerCode "staking" || includesStr lowerCode "stake" then
        some (getUniqueFileName files "contracts/tokens/TokenStaking.move")
      else if includesStr lowerCode "reward" || includesStr lowerCode "incentive" then
        some (getUniqueFileName files "contracts/tokens/RewardToken.move")
      else some (getUniqueFileName files "contracts/tokens/Token.move")
    else if includesStr lowerCode "struct nft" || includesStr lowerCode "nft_" then
      if includesStr lowerCode "marketplace" then
        some (getUniqueFileName files "contracts/nft/marketplace/NFTMarketplace.move")
      else if includesStr lowerCode "collection" then
        some (getUniqueFileName files "contracts/nft/collections/NFTCollection.move")
      else some (getUniqueFileName files "contracts/nft/NFTCore.move")
    else if includesStr lowerCode "liquidity" || includesStr lowerCode "pool" ||
        includesStr lowerCode "defi" then
      if includesStr lowerCode "liquidity" then
        some (getUniqueFileName files "contracts/defi/liquidity/LiquidityPool.move")
      else if includesStr lowerCode "swap" || includesStr lowerCode "exchange" then
        some (getUniqueFileName files "contracts/defi/exchange/SwapEngine.move")
      else if includesStr lowerCode "lending" || includesStr lowerCode "borrow" then
        some (getUniqueFileName files "contracts/defi/lending/LendingProtocol.move")
      else if includesStr lowerCode "farm" || includesStr lowerCode "yield" then
        some (getUniqueFileName files "contracts/defi/farming/YieldFarm.move")
      else some (getUniqueFileName files "contracts/defi/DeFiCore.move")
    else if includesStr lowerCode "governance" || includesStr lowerCode "dao" ||
        includesStr lowerCode "proposal" then
      if includesStr lowerCode "voting" then
        some (getUniqueFileName files "contracts/governance/VotingMechanism.move")
      else if includesStr lowerCode "treasury" then
        some (getUniqueFileName files "contracts/governance/Treasury.move")
      else some (getUniqueFileName files "contracts/governance/DAO.move")
    else if includesStr lowerCode "access" || includesStr lowerCode "role" ||
        includesStr lowerCode "permission" then
      some (getUniqueFileName files "contracts/access/AccessControl.move")
    else if includesStr lowerCode "util" || includesStr lowerCode "helper" ||
        includesStr lowerCode "library" then
      some (getUniqueFileName files "contracts/utils/Utilities.move")
    else
      some (getUniqueFileName files
        ("contracts/core/Contract_" ++ toString (index + 1) ++ ".move"))
  else if includesStr lowerCode "test" || includesStr lowerCode "#[test]" ||
      language == "test" then
    if includesStr lowerCode "integration" then
      some (getUniqueFileName files
        ("tests/integration/integration_test_" ++ toString (index + 1) ++ "." ++
          (if language == "move" then "move" else "js")))
    else
      some (getUniqueFileName files
        ("tests/unit/unit_test_" ++ toString (index + 1) ++ "." ++
          (if language == "move" then "move" else "js")))
  else if language == "javascript" || language == "js" || language == "typescript" ||
      language == "ts" then
    if includesStr lowerCode "deploy" || includesStr lowerCode "deployment" then
      if includesStr lowerCode "mainnet" then
        some (getUniqueFileName files "scripts/deployment/mainnet/deploy.js")
      else if includesStr lowerCode "testnet" then
        some (getUniqueFileName files "scripts/deployment/testnet/deploy.js")
      else some (getUniqueFileName files "scripts/deployment/deploy.js")
    else if includesStr lowerCode "interact" || includesStr lowerCode "interaction" then
      some (getUniqueFileName files "scripts/interaction/interact.js")
    else if includesStr lowerCode "config" || includesStr lowerCode "setup" then
      some (getUniqueFileName files "config/setup.js")
    else some (getUniqueFileName files ("scripts/script_" ++ toString (index + 1) ++ ".js"))
  else if language == "markdown" || language == "md" then
    if includesStr lowerCode "readme" || includesStr lowerCode "# " then
      some (getUniqueFileName files "README.md")
    else if includesStr lowerCode "api" then
      some (getUniqueFileName files "docs/api/API.md")
    else if includesStr lowerCode "deploy" then
      some (getUniqueFileName files "docs/deployment/DEPLOYMENT.md")
    else some (getUniqueFileName files ("docs/documentation_" ++ toString (index + 1) ++ ".md"))
  else
    some (getUniqueFileName files
      ("misc/file_" ++ toString (index + 1) ++ "." ++
        (if language == "" then "txt" else language)))

/-- The `forEach` creation loop of `handleSendMessage` over extracted blocks:
name each block, skip it when no name is produced or a duplicate is
detected, otherwise create it.  State is threaded sequentially
(run-to-completion; the React closure staleness across one burst is not
modelled, per the spec's single-threaded operation model). -/
def createFromBlocks (nowMs : Nat) (rand : Nat → String) (nowIso : String) :
    List CodeBlock → Nat → AIState → AIState
  | [], _, s => s
  | b :: bs, idx, s =>
    let s' := match generateFileName s.files b.code b.language idx with
      | some fn =>
        if !(preventDuplicateFiles s.files fn) then
          addFileFromAI fn b.code b.language nowMs (rand idx) nowIso s
        else s
      | none => s
    createFromBlocks nowMs rand nowIso bs (idx + 1) s'

/-- Outcome of one `handleSendMessage` run: whether the model endpoint was
invoked, the file-not-found toast (missing name plus the first five known
file names) if the flow aborted, and the resulting provider state. -/
structure SendResult where
  modelCalled : Bool
  fileNotFound : Option (String × List String)
  state : AIState
deriving Repr, DecidableEq

/-- `handleSendMessage` (ChatInterface.tsx lines 269-430), as a function of
the message and of the external model's reply `response`: detect an edit
command, abort with a file-not-found toast when its target resolves to no
file (before the model call), otherwise call the model and apply the
extracted blocks — single-block edit updates the target, further blocks and
the no-edit mode go through the creation loop. -/
def handleSendMessage (message response : String) (nowMs : Nat) (rand : Nat → String)
    (nowIso : String) (s : AIState) : SendResult :=
  match detectEditCommand message with
  | some editFileName =>
    match findFileByName s.files editFileName with
    | none =>
      { modelCalled := false,
        fileNotFound := some (editFileName, (s.files.map (fun f => f.name)).take 5),
        state := s }
    | some targetFile =>
      let codeBlocks := extractCodeFromResponse response
      let s' := match codeBlocks with
        | [] => s
        | [b] => updateFile targetFile.id b.code s
        | b :: bs =>
          createFromBlocks nowMs rand nowIso bs 1 (updateFile targetFile.id b.code s)
      { modelCalled := true, fileNotFound := none, state := s' }
  | none =>
    let codeBlocks := extractCodeFromResponse response
    { modelCalled := true, fileNotFound := none,
      state := createFromBlocks nowMs rand nowIso codeBlocks 0 s }

/-! ## Invariants and helper lemmas -/

/-- The case-folded name column of a file list. -/
def lowerNames (files : List FileItem) : List String :=
  files.map (fun f => lower f.name)

/-- The registry invariant: no two entries with case-insensitively equal
names. -/
def uniqueNames (files : List FileItem) : Prop := (lowerNames files).Nodup

/-- One `addFileFromAI` call, packaged for reasoning about sequences of
create operations. -/
structure CreateOp where
  fileName : String
  content : String
  ftype : String
  nowMs : Nat
  rand : String
  nowIso : String

def applyCreate (s : AIState) (op : CreateOp) : AIState :=
  addFileFromAI op.fileName op.content op.ftype op.nowMs op.rand op.nowIso s

theorem lowerNames_map_content (files : List FileItem) (fid c : String) :
    lowerNames (files.map (fun f =>
      if f.id == fid then { f with content := c } else f)) = lowerNames files := by
  induction files with
  | nil => rfl
  | cons a t ih =>
    simp only [lowerNames, List.map_cons] at ih ⊢
    by_cases h : (a.id == fid) = true <;>
      simp [h, ih] <;> intro x hx <;> by_cases hx2 : x.id = fid <;> simp [hx2]

theorem mem_lowerNames {files : List FileItem} {x : String} :
    x ∈ lowerNames files ↔ ∃ f ∈ files, lower f.name = x := by
  simp [lowerNames]

theorem addFileFromAI_preserves_uniqueNames
    (fileName content ftype : String) (nowMs : Nat) (rand nowIso : String)
    (s : AIState) (h : uniqueNames s.files) :
    uniqueNames (addFileFromAI fileName content ftype nowMs rand nowIso s).files := by
  unfold addFileFromAI
  by_cases hv : validateFileContent content fileName = true
  · simp only [hv, if_true]
    cases hf : s.files.find? (fun f => lower f.name == lower fileName) with
    | some e =>
      simpa only [uniqueNames, lowerNames_map_content] using h
    | none =>
      have hnotin : lower fileName ∉ lowerNames s.files := by
        intro hmem
        rcases mem_lowerNames.mp hmem with ⟨f, hfmem, hfeq⟩
        have := List.find?_eq_none.mp hf f hfmem
        simp only [beq_iff_eq] at this
        exact this hfeq
      simp only [uniqueNames, lowerNames, List.map_append, List.map_cons, List.map_nil]
      rw [List.nodup_append]
      refine ⟨h, List.nodup_singleton _, ?_⟩
      intro x hx hx1
      simp only [List.mem_singleton] at hx1
      subst hx1
      exact hnotin hx
  · simp only [Bool.not_eq_true] at hv
    simp only [hv, Bool.false_eq_true, if_false]
    exact h

theorem updateFile_preserves_uniqueNames (fid c : String) (s : AIState)
    (h : uniqueNames s.files) : uniqueNames (updateFile fid c s).files := by
  simpa only [updateFile, uniqueNames, lowerNames_map_content] using h

theorem deleteFile_preserves_uniqueNames (fid iso : String) (s : AIState)
    (h : uniqueNames s.files) : uniqueNames (deleteFile fid iso s).files := by
  unfold deleteFile uniqueNames lowerNames
  exact h.sublist (List.Sublist.map _ (List.filter_sublist s.files))

theorem foldl_applyCreate_preserves : ∀ (ops : List CreateOp) (s : AIState),
    uniqueNames s.files → uniqueNames ((ops.foldl applyCreate s).files)
  | [], _, h => h
  | op :: ops, s, h =>
    foldl_applyCreate_preserves ops (applyCreate s op)
      (addFileFromAI_preserves_uniqueNames op.fileName op.content op.ftype
        op.nowMs op.rand op.nowIso s h)

/-! ## Claim C1 -/

/-- Claim C1: starting from a file list with no two case-insensitively equal
names, every sequence of `addFileFromAI` create operations preserves that
invariant, and so does each single `updateFile` and `deleteFile` mutation. -/
theorem claim_C1_store_mutations_preserve_unique_names
    (ops : List CreateOp) (s : AIState) (h : uniqueNames s.files) :
    uniqueNames ((ops.foldl applyCreate s).files) ∧
    (∀ fid c, uniqueNames ((updateFile fid c s).files)) ∧
    (∀ fid iso, uniqueNames ((deleteFile fid iso s).files)) :=
  ⟨foldl_applyCreate_preserves ops s h,
   fun fid c => updateFile_preserves_uniqueNames fid c s h,
   fun fid iso => deleteFile_preserves_uniqueNames fid iso s h⟩

/-- A 60-character Move body used by concrete scenarios. -/
def demoBody : String :=
  "module demo \x7b public fun f() \x7b\x7d \x7d -- padding padding pad"

def tokenEntry : FileItem := ⟨"id-token", "Token.move", "file", demoBody⟩

theorem claim_C1_witness :
    uniqueNames
      (([⟨"contracts/Token.move", demoBody, "move", 1, "r1", "t1"⟩,
         ⟨"contracts/Token.move", demoBody, "move", 2, "r2", "t2"⟩] :
          List CreateOp).foldl applyCreate ⟨[tokenEntry], "", none⟩).files ∧
    (∀ fid c, uniqueNames ((updateFile fid c ⟨[tokenEntry], "", none⟩).files)) ∧
    (∀ fid iso, uniqueNames ((deleteFile fid iso ⟨[tokenEntry], "", none⟩).files)) :=
  claim_C1_store_mutations_preserve_unique_names _ _ (by
    simp [uniqueNames, lowerNames, tokenEntry])

/-! ## Claim C2 -/

theorem countP_map_content (p : String → Bool) (fid c : String) :
    ∀ l : List FileItem,
      (l.map (fun f => if f.id == fid then { f with content := c } else f)).countP
          (fun f => p f.name) =
        l.countP (fun f => p f.name)
  | [] => rfl
  | a :: t => by
    simp only [List.map_cons, List.countP_cons, countP_map_content p fid c t]
    by_cases h : (a.id == fid) = true <;> simp [h]

theorem countP_eq_one_of_find?_of_nodup {q : String} :
    ∀ {l : List FileItem} {e : FileItem},
      uniqueNames l → l.find? (fun f => lower f.name == lower q) = some e →
      l.countP (fun f => lower f.name == lower q) = 1 := by
  intro l
  induction l with
  | nil => intro e _ hf; simp [List.find?] at hf
  | cons a t ih =>
    intro e hnd hf
    have hnd' : uniqueNames t ∧ lower a.name ∉ lowerNames t := by
      have := hnd
      simp only [uniqueNames, lowerNames, List.map_cons, List.nodup_cons] at this
      exact ⟨this.2, this.1⟩
    by_cases ha : (lower a.name == lower q) = true
    · have hzero : t.countP (fun f => lower f.name == lower q) = 0 := by
        rw [List.countP_eq_zero]
        intro f hfmem hfq
        rw [beq_iff_eq] at ha hfq
        exact hnd'.2 (mem_lowerNames.mpr ⟨f, hfmem, hfq.trans ha.symm⟩)
      simp [List.countP_cons, ha, hzero]
    · have hf' : t.find? (fun f => lower f.name == lower q) = some e := by
        simpa [List.find?, ha] using hf
      have hb : (lower a.name == lower q) = false := by
        simpa using ha
      simp [List.countP_cons, hb, ih hnd'.1 hf']

/-- Claim C2: a create call whose (validated) content targets a file name
that collides case-insensitively with an existing entry updates that entry's
content in place and selects it; the file list keeps its length (no second
entry, no error) and, under the uniqueness invariant, exactly one entry with
that case-insensitive identity remains. -/
theorem claim_C2_create_is_update
    (fileName content ftype : String) (nowMs : Nat) (rand nowIso : String)
    (s : AIState) (e : FileItem)
    (hv : validateFileContent content fileName = true)
    (hf : s.files.find? (fun f => lower f.name == lower fileName) = some e)
    (hnd : uniqueNames s.files) :
    (addFileFromAI fileName content ftype nowMs rand nowIso s).files =
      s.files.map (fun f => if f.id == e.id then { f with content := content } else f) ∧
    (addFileFromAI fileName content ftype nowMs rand nowIso s).selectedFileId = e.id ∧
    (addFileFromAI fileName content ftype nowMs rand nowIso s).files.length =
      s.files.length ∧
    (addFileFromAI fileName content ftype nowMs rand nowIso s).files.countP
      (fun f => lower f.name == lower fileName) = 1 := by
  simp only [addFileFromAI, hv, if_true, hf]
  refine ⟨by simp, by simp, by simp, ?_⟩
  rw [countP_map_content (fun n => lower n == lower fileName) e.id content s.files]
  exact countP_eq_one_of_find?_of_nodup hnd hf

theorem claim_C2_witness :
    (addFileFromAI "token.MOVE" demoBody "move" 7 "r" "t"
        ⟨[tokenEntry], "", none⟩).files =
      [{ tokenEntry with content := demoBody }] ∧
    (addFileFromAI "token.MOVE" demoBody "move" 7 "r" "t"
        ⟨[tokenEntry], "", none⟩).selectedFileId = "id-token" ∧
    (addFileFromAI "token.MOVE" demoBody "move" 7 "r" "t"
        ⟨[tokenEntry], "", none⟩).files.length = 1 := by
  have h := claim_C2_create_is_update "token.MOVE" demoBody "move" 7 "r" "t"
    ⟨[tokenEntry], "", none⟩ tokenEntry (by decide) (by decide)
    (by simp [uniqueNames, lowerNames, tokenEntry])
  refine ⟨?_, h.2.1, h.2.2.1⟩
  rw [h.1]
  decide

/-! ## Claim C3 -/

/-- Claim C3, counterexample: with `Token.move` present, neither uniqueness
resolver produces the claimed `Token_2.move` — `getUniqueFileName` yields
`Token_v2.move` and `generateUniqueFileName` yields `Token_1.move`. -/
theorem claim_C3_counterexample :
    getUniqueFileName [tokenEntry] "Token.move" = "Token_v2.move" ∧
    getUniqueFileName [tokenEntry] "Token.move" ≠ "Token_2.move" ∧
    generateUniqueFileName "Token.move" [tokenEntry] = "Token_1.move" ∧
    generateUniqueFileName "Token.move" [tokenEntry] ≠ "Token_2.move" := by
  refine ⟨by decide, by decide, by decide, by decide⟩

def tokenV2Entry : FileItem := ⟨"id-token-v2", "Token_v2.move", "file", demoBody⟩

def token1Entry : FileItem := ⟨"id-token-1", "Token_1.move", "file", demoBody⟩

/-- Claim C3, amended: when `Token.move` exists, `getUniqueFileName` returns
`Token_v2.move`, with the `_v2`, `_v3`, … sequence (before the extension)
retried case-insensitively until no collision remains, while the first
provider version's `generateUniqueFileName` returns `Token_1.move`, counting
`_1`, `_2`, … case-sensitively. -/
theorem claim_C3_amended_suffix_form :
    getUniqueFileName [tokenEntry] "Token.move" = "Token_v2.move" ∧
    getUniqueFileName [tokenEntry, tokenV2Entry] "Token.move" = "Token_v3.move" ∧
    generateUniqueFileName "Token.move" [tokenEntry] = "Token_1.move" ∧
    generateUniqueFileName "Token.move" [tokenEntry, token1Entry] = "Token_2.move" := by
  refine ⟨by decide, by decide, by decide, by decide⟩

/-! ## Claim C5 -/

theorem foldl_push_filter {α : Type} (p : α → Bool) :
    ∀ (l acc : List α),
      l.foldl (fun acc x => if p x then acc ++ [x] else acc) acc = acc ++ l.filter p
  | [], acc => by simp
  | x :: t, acc => by
    rw [List.foldl_cons, List.filter_cons]
    by_cases h : p x = true
    · rw [if_pos h, if_pos h, foldl_push_filter p t (acc ++ [x]), List.append_assoc]
      rfl
    · rw [if_neg h, if_neg h, foldl_push_filter p t acc]

/-- Claim C5, counterexample: the merge de-duplicates new import lines only
against the old body's imports, so an import repeated inside the new body
survives twice — refuting "each distinct import appears exactly once". -/
theorem claim_C5_counterexample :
    (linesOf (mergeCodeIntelligently "fun a()" "use a;\nuse a;")).count "use a;" = 2 ∧
    ¬ (linesOf (mergeCodeIntelligently "fun a()" "use a;\nuse a;")).count "use a;" = 1 := by
  refine ⟨by decide, by decide⟩

/-- Claim C5, amended: the merge keeps the old body's import lines, appends
each new import line whose trimmed text matches no old import line (repeats
inside a single body are preserved — de-duplication is new-against-old only,
by trimmed-line equality), then places the old non-import lines followed by
the new non-import lines below the import block, with blank-line separators
(`mergeSpec` states exactly this); on the spec's own example the result is
each import once and both bodies old-then-new. -/
theorem claim_C5_amended_merge_semantics :
    (∀ existing newCode,
      mergeCodeIntelligently existing newCode = mergeSpec existing newCode) ∧
    mergeCodeIntelligently "use std::signer;\nfun a()\x7b\x7d"
        "use std::signer;\nuse std::vector;\nfun b()\x7b\x7d" =
      "use std::signer;\nuse std::vector;\n\nfun a()\x7b\x7d\n\nfun b()\x7b\x7d" := by
  constructor
  · intro existing newCode
    simp only [mergeCodeIntelligently, mergeSpec]
    rw [foldl_push_filter]
  · decide

/-! ## Claim C6 -/

/-- Claim C6: a create call whose content trims to fewer than 50 characters
(in particular an empty content) is silently skipped — the whole provider
state, in particular the file list, is unchanged, and no error is raised. -/
theorem claim_C6_validation_floor
    (fileName content ftype : String) (nowMs : Nat) (rand nowIso : String)
    (s : AIState) (h : (trimStr content).length < 50) :
    addFileFromAI fileName content ftype nowMs rand nowIso s = s := by
  have hv : validateFileContent content fileName = false := by
    unfold validateFileContent
    exact if_pos (Or.inr h)
  unfold addFileFromAI
  rw [hv]
  simp

theorem claim_C6_witness :
    addFileFromAI "Token.move" "short" "move" 3 "r" "t" ⟨[tokenEntry], "", none⟩ =
      ⟨[tokenEntry], "", none⟩ :=
  claim_C6_validation_floor "Token.move" "short" "move" 3 "r" "t"
    ⟨[tokenEntry], "", none⟩ (by decide)

/-! ## Claim C7 -/

/-- Claim C7, counterexample: a proposed name with one path separator (two
segments) is not passed through — the classifier re-files it. -/
theorem claim_C7_counterexample :
    organizeFileIntoDirectory "a/Token.move" "module X" "move" =
      "contracts/tokens/a/Token.move" ∧
    organizeFileIntoDirectory "a/Token.move" "module X" "move" ≠ "a/Token.move" := by
  refine ⟨by decide, by decide⟩

/-- Claim C7, amended: the classifier returns the proposed name unchanged
exactly when it already contains at least two path separators (three or more
segments); names with zero or one separator go through content
classification. -/
theorem claim_C7_amended_passthrough (fileName content ty : String)
    (h : 2 ≤ countSlash fileName) :
    organizeFileIntoDirectory fileName content ty = fileName := by
  unfold organizeFileIntoDirectory
  rw [if_pos h]

theorem claim_C7_witness :
    organizeFileIntoDirectory "contracts/tokens/X.move" "module X" "move" =
      "contracts/tokens/X.move" :=
  claim_C7_amended_passthrough "contracts/tokens/X.move" "module X" "move" (by decide)

/-! ## Claim C9 -/

def c9OldFile : FileItem := ⟨"f1", "contracts/Token.move", "file", demoBody⟩

/-- The storage state after a save of a one-file project (all three keys
populated). -/
def c9Saved : Storage :=
  saveProjectToStorage 5 "2024-01-01" ⟨[c9OldFile], "f1", none⟩ ⟨none, none, none⟩

/-- Claim C9 (code bug): `createNewProject` clears the in-memory state and
the `imcode-current-project` / `imcode-selected-file` keys, but leaves the
`imcode-files-backup` key that `saveProjectToStorage` also writes, so a
subsequent `loadProjectFromStorage` restores the previous project's files
from the backup — the persisted storage is not fully wiped. -/
theorem claim_C9_new_project_reset_bug :
    (createNewProject "Fresh" 6 "rnd" "2024-01-02"
        ⟨[c9OldFile], "f1", c9Saved.currentProject⟩ c9Saved).1.files = [] ∧
    (createNewProject "Fresh" 6 "rnd" "2024-01-02"
        ⟨[c9OldFile], "f1", c9Saved.currentProject⟩ c9Saved).1.selectedFileId = "" ∧
    (createNewProject "Fresh" 6 "rnd" "2024-01-02"
        ⟨[c9OldFile], "f1", c9Saved.currentProject⟩ c9Saved).2.currentProject = none ∧
    (createNewProject "Fresh" 6 "rnd" "2024-01-02"
        ⟨[c9OldFile], "f1", c9Saved.currentProject⟩ c9Saved).2.selectedFile = none ∧
    (createNewProject "Fresh" 6 "rnd" "2024-01-02"
        ⟨[c9OldFile], "f1", c9Saved.currentProject⟩ c9Saved).2.filesBackup =
      some [c9OldFile] ∧
    (loadProjectFromStorage
        (createNewProject "Fresh" 6 "rnd" "2024-01-02"
          ⟨[c9OldFile], "f1", c9Saved.currentProject⟩ c9Saved).2
        ⟨[], "", none⟩).files = [c9OldFile] := by
  refine ⟨by decide, by decide, by decide, by decide, by decide, by decide⟩

/-! ## Claim C4 -/

theorem find?_first {α : Type} (p : α → Bool) :
    ∀ (l : List α) (i : Nat) (hi : i < l.length),
      p (l.get ⟨i, hi⟩) = true →
      (∀ j (hj : j < i), p (l.get ⟨j, Nat.lt_trans hj hi⟩) = false) →
      l.find? p = some (l.get ⟨i, hi⟩) := by
  intro l
  induction l with
  | nil => intro i hi; exact absurd hi (by simp)
  | cons a t ih =>
    intro i hi hp hfirst
    cases i with
    | zero =>
      exact List.find?_cons_of_pos _ hp
    | succ n =>
      have h0 : p a = false := hfirst 0 (Nat.succ_pos n)
      rw [List.find?_cons_of_neg _ (by simp [h0])]
      exact ih n (Nat.lt_of_succ_lt_succ hi) hp
        (fun j hj => hfirst (j + 1) (Nat.succ_lt_succ hj))

/-- Claim C4: `findFileByName` applies its six strategies in the fixed source
order (exact, case-insensitive exact, ends-with, contains,
basename-without-extension, normalized); if every strategy below `k` matches
no entry and position `i` is the first entry matching strategy `k`, the
lookup returns exactly that entry — insertion order decides within a
strategy and no lower-priority strategy is consulted. -/
theorem claim_C4_find_ordering (files : List FileItem) (fileName : String)
    (k i : Nat) (hk : k < 6) (hi : i < files.length)
    (hnone : ∀ j, j < k → files.find? (stratMatch j (cleanName fileName)) = none)
    (hmatch : stratMatch k (cleanName fileName) (files.get ⟨i, hi⟩) = true)
    (hfirst : ∀ j (hj : j < i),
      stratMatch k (cleanName fileName) (files.get ⟨j, Nat.lt_trans hj hi⟩) = false) :
    findFileByName files fileName = some (files.get ⟨i, hi⟩) := by
  have hfind := find?_first _ files i hi hmatch hfirst
  interval_cases k
  · simp [findFileByName, hfind]
  · have h0 := hnone 0 (by omega)
    simp [findFileByName, h0, hfind, Option.orElse]
  · have h0 := hnone 0 (by omega)
    have h1 := hnone 1 (by omega)
    simp [findFileByName, h0, h1, hfind, Option.orElse]
  · have h0 := hnone 0 (by omega)
    have h1 := hnone 1 (by omega)
    have h2 := hnone 2 (by omega)
    simp [findFileByName, h0, h1, h2, hfind, Option.orElse]
  · have h0 := hnone 0 (by omega)
    have h1 := hnone 1 (by omega)
    have h2 := hnone 2 (by omega)
    have h3 := hnone 3 (by omega)
    simp [findFileByName, h0, h1, h2, h3, hfind, Option.orElse]
  · have h0 := hnone 0 (by omega)
    have h1 := hnone 1 (by omega)
    have h2 := hnone 2 (by omega)
    have h3 := hnone 3 (by omega)
    have h4 := hnone 4 (by omega)
    simp [findFileByName, h0, h1, h2, h3, h4, hfind, Option.orElse]

def fA : FileItem := ⟨"idA", "a/Token.move", "file", demoBody⟩

def fB : FileItem := ⟨"idB", "b/token.move", "file", demoBody⟩

theorem claim_C4_witness : findFileByName [fA, fB] "Token.move" = some fA :=
  claim_C4_find_ordering [fA, fB] "Token.move" 2 0 (by omega) (by decide)
    (fun j hj => by interval_cases j <;> decide)
    (by decide)
    (fun j hj => absurd hj (Nat.not_lt_zero j))

/-! ## Claim C8 -/

/-- Claim C8: when the message matches an edit-verb pattern whose captured
target resolves to no file, `handleSendMessage` aborts before the model
call — no model request is issued, the file-not-found toast lists the (first
five) known file names, and the provider state is unchanged. -/
theorem claim_C8_edit_target_not_found_aborts
    (message response : String) (nowMs : Nat) (rand : Nat → String) (nowIso : String)
    (s : AIState) (x : String)
    (h1 : detectEditCommand message = some x)
    (h2 : findFileByName s.files x = none) :
    handleSendMessage message response nowMs rand nowIso s =
      ⟨false, some (x, (s.files.map (fun f => f.name)).take 5), s⟩ := by
  simp only [handleSendMessage, h1, h2]

theorem claim_C8_witness :
    handleSendMessage "edit Missing.move" "reply" 0 (fun _ => "r") "t"
        ⟨[fA], "", none⟩ =
      ⟨false, some ("Missing.move", ["a/Token.move"]), ⟨[fA], "", none⟩⟩ :=
  claim_C8_edit_target_not_found_aborts "edit Missing.move" "reply" 0
    (fun _ => "r") "t" ⟨[fA], "", none⟩ "Missing.move" (by decide) (by decide)

/-! ## Claim C10 -/

theorem all_takeWhile_self {α : Type} (p : α → Bool) :
    ∀ l : List α, (l.takeWhile p).all p = true
  | [] => rfl
  | a :: t => by
    by_cases h : p a = true
    · simp [List.takeWhile_cons, h, all_takeWhile_self p t]
    · simp [List.takeWhile_cons, h]

theorem fenceMatchAt_run_wordChars {cs run body rest : List Char}
    (h : fenceMatchAt cs = some (run, body, rest)) : run.all wordChar = true := by
  simp only [fenceMatchAt] at h
  split at h
  · split at h
    · split at h
      · injection h with h'
        injection h' with hrun _
        rw [← hrun]
        exact all_takeWhile_self wordChar _
      · exact absurd h (by simp)
    · exact absurd h (by simp)
  · exact absurd h (by simp)

theorem mem_keepBlock {L C : String} {b : CodeBlock} {blocks : List CodeBlock}
    (h : b ∈ keepBlock L C blocks) :
    (b = ⟨L, C⟩ ∧ (lower L == "rust" || lower L == "rs") = false ∧
      (C == "" || decide ((trimStr C).length < 50)) = false) ∨ b ∈ blocks := by
  unfold keepBlock at h
  split at h
  next => right; exact h
  next hlang =>
    split at h
    next => right; exact h
    next hcode =>
      rcases List.mem_cons.mp h with heq | hmem
      · left
        exact ⟨heq, by simpa using hlang, by simpa using hcode⟩
      · right; exact hmem

theorem extractLoop_mem_props :
    ∀ (fuel : Nat) (cs : List Char) (b : CodeBlock), b ∈ extractLoop fuel cs →
      50 ≤ (trimStr b.code).length ∧
      lower b.language ≠ "rust" ∧ lower b.language ≠ "rs" ∧
      (b.language = "move" ∨
        (b.language.data ≠ [] ∧ b.language.data.all wordChar = true)) := by
  intro fuel
  induction fuel with
  | zero => intro cs b hb; simp [extractLoop] at hb
  | succ n ih =>
    intro cs b hb
    cases cs with
    | nil => simp [extractLoop] at hb
    | cons c cs' =>
      cases hm : fenceMatchAt (c :: cs') with
      | none =>
        rw [extractLoop, hm] at hb
        exact ih cs' b hb
      | some triple =>
        obtain ⟨run, body, rest⟩ := triple
        rw [extractLoop, hm] at hb
        rcases mem_keepBlock hb with ⟨heq, hlang, hcode⟩ | hmem
        · subst heq
          simp only [Bool.or_eq_false_iff, beq_eq_false_iff_ne,
            decide_eq_false_iff_not, not_lt] at hlang hcode
          refine ⟨hcode.2, hlang.1, hlang.2, ?_⟩
          by_cases hrun : run.isEmpty = true
          · left
            simp [hrun]
          · right
            have hne : run ≠ [] := by
              simpa [List.isEmpty_iff] using hrun
            constructor
            · simpa [hrun] using hne
            · simpa [hrun] using fenceMatchAt_run_wordChars hm
        · exact ih rest b hmem

/-- Claim C10: every block returned by `extractCodeFromResponse` has a
trimmed body of at least 50 characters and a language tag that is not
`rust`/`rs` case-insensitively (offending fences are silently dropped), each
tag being either the `move` default or a nonempty word-character run from
the fence; an untagged fence comes out tagged `move`. -/
theorem claim_C10_extractor_filtering :
    (∀ (response : String) (b : CodeBlock), b ∈ extractCodeFromResponse response →
      50 ≤ (trimStr b.code).length ∧
      lower b.language ≠ "rust" ∧ lower b.language ≠ "rs" ∧
      (b.language = "move" ∨
        (b.language.data ≠ [] ∧ b.language.data.all wordChar = true))) ∧
    extractCodeFromResponse ("```\n" ++ demoBody ++ "```") = [⟨"move", demoBody⟩] := by
  constructor
  · intro response b hb
    exact extractLoop_mem_props response.data.length response.data b hb
  · decide

theorem claim_C10_witness :
    50 ≤ (trimStr demoBody).length ∧
    lower "move" ≠ "rust" ∧ lower "move" ≠ "rs" ∧
    ((CodeBlock.mk "move" demoBody).language = "move" ∨
      ((CodeBlock.mk "move" demoBody).language.data ≠ [] ∧
        (CodeBlock.mk "move" demoBody).language.data.all wordChar = true)) :=
  claim_C10_extractor_filtering.1 ("```move\n" ++ demoBody ++ "```")
    ⟨"move", demoBody⟩ (by decide)

end ImCode
